import Mathlib

/-!
Shallow embedding of the build-orchestration service (`BuildService`) and a
verification of the specification claims against it.

The embedding models the persisted data (builds, actions, steps) as plain
Lean structures, pure computations (`calcBuildStatus`, `getOrderedEntities`,
`createInitialStepData`, `download`) as Lean functions over an explicit
database value, and the effectful pipeline stages (`create`, `generate`,
`saveToGitHub`, `buildDockerImage`, `handleContainerBuilderResult`,
`updateRunningBuildsStatus`) as trace-producing functions: each stage maps
its inputs to the ordered list of observable effects (persistence writes,
log appends, step completions, external-service calls) that the source
performs.  Concurrency (`Promise.all` over per-application groups in the
reconciliation sweep) is modelled by an inductive interleaving relation on
the per-group traces.
-/

/-- Step statuses, from `EnumActionStepStatus`. -/
inductive EnumActionStepStatus where
  | Waiting
  | Running
  | Failed
  | Success
  deriving DecidableEq

/-- Derived build statuses, from `EnumBuildStatus`. -/
inductive EnumBuildStatus where
  | Running
  | Completed
  | Failed
  | Invalid
  deriving DecidableEq

/-- Remote container-build statuses, from the container-builder package's
`EnumBuildStatus` (imported as `ContainerBuildStatus` in the source). -/
inductive ContainerBuildStatus where
  | Running
  | Completed
  | Failed
  deriving DecidableEq

/-- Log levels, from `EnumActionLogLevel`. -/
inductive EnumActionLogLevel where
  | Error
  | Warning
  | Info
  | Debug
  deriving DecidableEq

/-- A persisted action step (the fields the orchestration logic reads). -/
structure ActionStep where
  name : String
  message : String
  status : EnumActionStepStatus
  completedAt : Option Nat
  deriving DecidableEq

/-- The application fields read by the build service (`build.app`). -/
structure AppModel where
  name : String
  description : String
  githubSyncEnabled : Bool
  githubRepo : String
  githubBranch : String
  githubToken : String
  deriving DecidableEq

/-- A persisted build row, with its action's steps included
(`include: ACTION_INCLUDE`).  `action = none` models a null `action`
relation; the steps list models `action.steps`. -/
structure Build where
  id : String
  appId : String
  commitMessage : String
  version : String
  createdAt : Nat
  images : List String
  containerStatusQuery : Option String
  containerStatusUpdatedAt : Nat
  action : Option (List ActionStep)
  app : AppModel
  deriving DecidableEq

/-- The result of a remote container build, from the container-builder
package's `BuildResult`. -/
structure BuildResult where
  status : ContainerBuildStatus
  images : List String
  statusQuery : Option String
  deriving DecidableEq

def GENERATE_STEP_NAME : String := "GENERATE_APPLICATION"
def GENERATE_STEP_MESSAGE : String := "Generating Application"
def BUILD_DOCKER_IMAGE_STEP_NAME : String := "BUILD_DOCKER"
def BUILD_DOCKER_IMAGE_STEP_MESSAGE : String := "Building Docker image"
def BUILD_DOCKER_IMAGE_STEP_FINISH_LOG : String := "Built Docker image successfully"
def BUILD_DOCKER_IMAGE_STEP_FAILED_LOG : String := "Build Docker failed"
def BUILD_DOCKER_IMAGE_STEP_RUNNING_LOG : String := "Waiting for Docker image..."
def BUILD_DOCKER_IMAGE_STEP_START_LOG : String :=
  "Starting to build Docker image. It should take a few minutes."
def PUSH_TO_GITHUB_STEP_NAME : String := "PUSH_TO_GITHUB"
def PUSH_TO_GITHUB_STEP_MESSAGE : String := "Push changes to GitHub"
def PUSH_TO_GITHUB_STEP_START_LOG : String := "Starting to push changes to GitHub."
def PUSH_TO_GITHUB_STEP_FINISH_LOG : String := "Successfully pushed changes to GitHub"
def PUSH_TO_GITHUB_STEP_FAILED_LOG : String := "Push changes to GitHub failed"
def ACTION_ZIP_LOG : String := "Creating ZIP file"
def ACTION_JOB_DONE_LOG : String := "Build job done"
def JOB_STARTED_LOG : String := "Build job started"
def JOB_DONE_LOG : String := "Build job done"
def CONTAINER_STATUS_UPDATE_INTERVAL_SEC : Nat := 10

/-- `step.status === EnumActionStepStatus.Success` as a Boolean test. -/
def isSuccess : EnumActionStepStatus → Bool
  | .Success => true
  | _ => false

/-- `step.status === EnumActionStepStatus.Failed` as a Boolean test. -/
def isFailedStatus : EnumActionStepStatus → Bool
  | .Failed => true
  | _ => false

/-- The steps of a build's action (`build.action.steps`), empty when the
action relation is null. -/
def stepsOf (b : Build) : List ActionStep :=
  b.action.getD []

/-- The log lines created with the initial step (name, level, message). -/
structure ActionLogCreate where
  level : EnumActionLogLevel
  message : String
  deriving DecidableEq

/-- The nested-create payload returned by `createInitialStepData`. -/
structure ActionStepCreate where
  message : String
  name : String
  status : EnumActionStepStatus
  completedAt : Option Nat
  logs : List ActionLogCreate
  deriving DecidableEq

/-- `createInitialStepData(version, message)` (source lines 114-140): the
initial `ADD_TO_QUEUE` step payload persisted together with every new
build.  `now` models `new Date()`. -/
def createInitialStepData (now : Nat) (version message : String) : ActionStepCreate :=
  { message := "Adding task to queue"
    name := "ADD_TO_QUEUE"
    status := .Success
    completedAt := some now
    logs :=
      [⟨.Info, "create build generation task"⟩,
       ⟨.Info, "Build Version: " ++ version⟩,
       ⟨.Info, "Build message: " ++ message⟩] }

/-- The `ActionStep` row resulting from persisting a step-create payload. -/
def stepOfCreateInput (d : ActionStepCreate) : ActionStep :=
  { name := d.name, message := d.message, status := d.status, completedAt := d.completedAt }

/-- The JavaScript runtime failure raised by dereferencing a null lookup
result (`build.action` on `build === null`). -/
inductive JsRuntimeError where
  | nullDereference
  deriving DecidableEq

/-- `calcBuildStatus` restricted to a fetched build row (source lines
317-326): `Invalid` when the action or its steps are missing or empty,
`Completed` when every step succeeded, `Failed` when some step failed,
`Running` otherwise. -/
def calcBuildStatusOf (b : Build) : EnumBuildStatus :=
  match b.action with
  | none => .Invalid
  | some steps =>
    if steps.isEmpty then .Invalid
    else if steps.all (fun s => isSuccess s.status) then .Completed
    else if steps.any (fun s => isFailedStatus s.status) then .Failed
    else .Running

/-- `BuildService.calcBuildStatus(buildId)` (source lines 309-327) over an
explicit database of build rows.  When `findUnique` returns null the source
immediately evaluates `build.action`, which throws a `TypeError`; that is
modelled as `JsRuntimeError.nullDereference`. -/
def calcBuildStatus (db : List Build) (buildId : String) :
    Except JsRuntimeError EnumBuildStatus :=
  match db.find? (fun b => b.id == buildId) with
  | none => .error .nullDereference
  | some b => .ok (calcBuildStatusOf b)

/-- Modelled from the spec: `getBuildZipFilePath` (storage helper not among
the provided sources) — the zip artifact path is content-addressed by the
build identity. -/
def getBuildZipFilePath (buildId : String) : String :=
  "builds/" ++ buildId ++ ".zip"

/-- Modelled from the spec: `getBuildTarGzFilePath` (storage helper not
among the provided sources) — the tarball artifact path is
content-addressed by the build identity. -/
def getBuildTarGzFilePath (buildId : String) : String :=
  "builds/" ++ buildId ++ ".tar.gz"

/-- The error taxonomy of `download` (the dedicated error classes of the
source: `BuildNotFoundError`, `StepNotFoundError`, `StepNotCompleteError`,
`BuildResultNotFound`). -/
inductive DownloadError where
  | buildNotFound (buildId : String)
  | stepNotFound (stepName : String)
  | stepNotComplete (stepName : String) (status : EnumActionStepStatus)
  | buildResultNotFound (buildId : String)
  deriving DecidableEq

/-- `getGenerateCodeStepStatus(buildId)` (source lines 290-307) applied to
a fetched build: the first step of the build's action named
`GENERATE_APPLICATION`. -/
def generateStepOf (b : Build) : Option ActionStep :=
  (stepsOf b).find? (fun s => s.name == GENERATE_STEP_NAME)

/-- `BuildService.download(args)` (source lines 329-353).  The artifact
store (`disk.exists` / `disk.getStream`) is modelled as a partial map from
paths to contents. -/
def download (db : List Build) (disk : String → Option String) (buildId : String) :
    Except DownloadError String :=
  match db.find? (fun b => b.id == buildId) with
  | none => .error (.buildNotFound buildId)
  | some b =>
    match generateStepOf b with
    | none => .error (.stepNotFound GENERATE_STEP_NAME)
    | some st =>
      if isSuccess st.status = false then
        .error (.stepNotComplete GENERATE_STEP_NAME st.status)
      else
        match disk (getBuildZipFilePath buildId) with
        | none => .error (.buildResultNotFound b.id)
        | some content => .ok content

/-- An entity row as read by `getOrderedEntities` (identity plus the
creation timestamp it sorts on). -/
structure Entity where
  id : String
  createdAt : Nat
  deriving DecidableEq

/-- The ordering key of `orderBy(entities, entity => entity.createdAt)`. -/
def entLe (a b : Entity) : Prop :=
  a.createdAt ≤ b.createdAt

instance : DecidableRel entLe := fun a b => Nat.decLe a.createdAt b.createdAt

instance : IsTotal Entity entLe := ⟨fun a b => Nat.le_total a.createdAt b.createdAt⟩

instance : IsTrans Entity entLe := ⟨fun _ _ _ hab hbc => Nat.le_trans hab hbc⟩

/-- The strict version of the ordering key, used to compare outputs. -/
def entLt (a b : Entity) : Prop :=
  a.createdAt < b.createdAt

instance : IsAntisymm Entity entLt :=
  ⟨fun _ _ hab hba => absurd hba (Nat.lt_asymm hab)⟩

/-- `BuildService.getOrderedEntities` (source lines 700-718) applied to the
list the underlying query yields: lodash `orderBy` with the single iteratee
`entity => entity.createdAt` is a stable ascending sort, which insertion
sort realizes exactly. -/
def getOrderedEntities (entities : List Entity) : List Entity :=
  List.insertionSort entLe entities

example : calcBuildStatus [] "b" = .error .nullDereference := by rfl

example :
    getOrderedEntities [⟨"e2", 7⟩, ⟨"e1", 3⟩] = [⟨"e1", 3⟩, ⟨"e2", 7⟩] := by
  decide

@[simp]
theorem isSuccess_eq_true_iff (st : EnumActionStepStatus) :
    isSuccess st = true ↔ st = .Success := by
  cases st <;> simp [isSuccess]

@[simp]
theorem isFailedStatus_eq_true_iff (st : EnumActionStepStatus) :
    isFailedStatus st = true ↔ st = .Failed := by
  cases st <;> simp [isFailedStatus]

/-- C4: for every existing build, `calcBuildStatus` is the pure function
`calcBuildStatusOf` of the action's step statuses: `Invalid` iff there are
no steps, `Completed` iff all steps succeeded, `Failed` iff some step
failed and not all succeeded, `Running` in every other case. -/
theorem calcBuildStatus_pure_of_step_statuses :
    ∀ (db : List Build) (buildId : String) (b : Build),
      db.find? (fun x => x.id == buildId) = some b →
      calcBuildStatus db buildId = .ok (calcBuildStatusOf b) ∧
      (calcBuildStatusOf b = .Invalid ↔ stepsOf b = []) ∧
      (calcBuildStatusOf b = .Completed ↔
        stepsOf b ≠ [] ∧ ∀ s ∈ stepsOf b, s.status = .Success) ∧
      (calcBuildStatusOf b = .Failed ↔
        (∃ s ∈ stepsOf b, s.status = .Failed) ∧
          ¬ (∀ s ∈ stepsOf b, s.status = .Success)) ∧
      (calcBuildStatusOf b = .Running ↔
        stepsOf b ≠ [] ∧ ¬ (∀ s ∈ stepsOf b, s.status = .Success) ∧
          ¬ (∃ s ∈ stepsOf b, s.status = .Failed)) := by
  intro db buildId b hfind
  refine ⟨by simp [calcBuildStatus, hfind], ?_⟩
  cases hact : b.action with
  | none => simp [calcBuildStatusOf, stepsOf, hact]
  | some steps =>
    by_cases hemp : steps.isEmpty
    · have hnil : steps = [] := by
        cases steps with
        | nil => rfl
        | cons x xs => simp [List.isEmpty] at hemp
      subst hnil
      simp [calcBuildStatusOf, stepsOf, hact]
    · have hne : steps ≠ [] := by
        intro h
        subst h
        simp [List.isEmpty] at hemp
      by_cases hall : steps.all (fun s => isSuccess s.status)
      · have hsucc : ∀ s ∈ steps, s.status = .Success := by
          intro s hs
          have := (List.all_eq_true.mp hall) s hs
          simpa using this
        have hnofail : ¬ ∃ s ∈ steps, s.status = .Failed := by
          rintro ⟨s, hs, hf⟩
          have := hsucc s hs
          rw [this] at hf
          exact EnumActionStepStatus.noConfusion hf
        simp [calcBuildStatusOf, stepsOf, hact, hemp, hall, hne, hnofail]
        exact hsucc
      · have hnotall : ¬ ∀ s ∈ steps, s.status = .Success := by
          intro hs
          exact hall (List.all_eq_true.mpr (fun s h => by simpa using hs s h))
        by_cases hany : steps.any (fun s => isFailedStatus s.status)
        · have hfail : ∃ s ∈ steps, s.status = .Failed := by
            obtain ⟨s, hs, hf⟩ := List.any_eq_true.mp hany
            exact ⟨s, hs, by simpa using hf⟩
          simp [calcBuildStatusOf, stepsOf, hact, hemp, hall, hany, hne, hnotall,
            hfail]
        · have hnofail : ¬ ∃ s ∈ steps, s.status = .Failed := by
            rintro ⟨s, hs, hf⟩
            exact absurd (List.any_eq_true.mpr ⟨s, hs, by simpa using hf⟩) hany
          simp [calcBuildStatusOf, stepsOf, hact, hemp, hall, hany, hne, hnotall,
            hnofail]

/-- A minimal application value used by concrete examples. -/
def plainApp : AppModel :=
  { name := "app", description := "", githubSyncEnabled := false,
    githubRepo := "", githubBranch := "", githubToken := "" }

/-- A concrete build whose action has one succeeded generation step. -/
def c4Build : Build :=
  { id := "b1", appId := "a1", commitMessage := "m", version := "v",
    createdAt := 0, images := [], containerStatusQuery := none,
    containerStatusUpdatedAt := 0,
    action := some [⟨GENERATE_STEP_NAME, GENERATE_STEP_MESSAGE, .Success, none⟩],
    app := plainApp }

/-- Witness for C4 at a concrete database. -/
theorem calcBuildStatus_pure_of_step_statuses_witness :
    calcBuildStatus [c4Build] "b1" = .ok (calcBuildStatusOf c4Build) :=
  (calcBuildStatus_pure_of_step_statuses [c4Build] "b1" c4Build (by rfl)).1

/-- C9: the initial `ADD_TO_QUEUE` step is persisted already in `Success`
status with a completion timestamp, so a build whose action holds only this
step has derived status `Completed`. -/
theorem initial_step_success_and_completed_status :
    ∀ (now : Nat) (version message : String) (b : Build),
      (createInitialStepData now version message).status = .Success ∧
      (createInitialStepData now version message).completedAt = some now ∧
      (createInitialStepData now version message).name = "ADD_TO_QUEUE" ∧
      calcBuildStatusOf
        { b with
          action := some [stepOfCreateInput (createInitialStepData now version message)] } =
        .Completed := by
  intro now version message b
  refine ⟨rfl, rfl, rfl, ?_⟩
  rfl

/-- C10: for a build identity matching no row, `calcBuildStatus`
dereferences the null lookup result and throws instead of returning any
status. -/
theorem calcBuildStatus_missing_build_throws :
    ∀ (db : List Build) (buildId : String),
      db.find? (fun b => b.id == buildId) = none →
      calcBuildStatus db buildId = .error .nullDereference ∧
      ∀ s : EnumBuildStatus, calcBuildStatus db buildId ≠ .ok s := by
  intro db buildId h
  constructor
  · simp [calcBuildStatus, h]
  · intro s
    simp [calcBuildStatus, h]

/-- Witness for C10 on the empty database. -/
theorem calcBuildStatus_missing_build_throws_witness :
    calcBuildStatus [] "missing" = .error .nullDereference :=
  (calcBuildStatus_missing_build_throws [] "missing" (by rfl)).1

/-- C8 counterexample: with equal creation timestamps the stable sort keeps
the query order, so the output is not independent of the order in which the
query yields the entities. -/
theorem getOrderedEntities_query_order_cex :
    getOrderedEntities [⟨"e1", 5⟩, ⟨"e2", 5⟩] ≠
      getOrderedEntities [⟨"e2", 5⟩, ⟨"e1", 5⟩] := by
  decide

/-- C8 amended: `getOrderedEntities` always returns a permutation of its
input sorted ascending by creation timestamp, and whenever the creation
timestamps are pairwise distinct the result is independent of the order in
which the underlying query yields the entities. -/
theorem getOrderedEntities_sorted_and_deterministic :
    ∀ (l1 l2 : List Entity),
      List.Sorted entLe (getOrderedEntities l1) ∧
      (getOrderedEntities l1).Perm l1 ∧
      ((l1.map Entity.createdAt).Nodup → l1.Perm l2 →
        getOrderedEntities l1 = getOrderedEntities l2) := by
  intro l1 l2
  refine ⟨List.sorted_insertionSort entLe l1, List.perm_insertionSort entLe l1, ?_⟩
  intro hnd hperm
  have p1 : (getOrderedEntities l1).Perm l1 := List.perm_insertionSort entLe l1
  have p2 : (getOrderedEntities l2).Perm l2 := List.perm_insertionSort entLe l2
  have p12 : (getOrderedEntities l1).Perm (getOrderedEntities l2) :=
    p1.trans (hperm.trans p2.symm)
  have s1 : List.Sorted entLe (getOrderedEntities l1) :=
    List.sorted_insertionSort entLe l1
  have s2 : List.Sorted entLe (getOrderedEntities l2) :=
    List.sorted_insertionSort entLe l2
  have hnd1 : ((getOrderedEntities l1).map Entity.createdAt).Nodup :=
    ((p1.map Entity.createdAt).nodup_iff).mpr hnd
  have hnd2 : ((getOrderedEntities l2).map Entity.createdAt).Nodup :=
    ((p2.map Entity.createdAt).nodup_iff).mpr (((hperm.map Entity.createdAt).nodup_iff).mp hnd)
  have hne1 : (getOrderedEntities l1).Pairwise
      (fun a b : Entity => a.createdAt ≠ b.createdAt) :=
    List.pairwise_map.mp hnd1
  have hne2 : (getOrderedEntities l2).Pairwise
      (fun a b : Entity => a.createdAt ≠ b.createdAt) :=
    List.pairwise_map.mp hnd2
  have slt1 : List.Sorted entLt (getOrderedEntities l1) :=
    (List.pairwise_and_iff.mpr ⟨s1, hne1⟩).imp
      (fun h => Nat.lt_of_le_of_ne h.1 h.2)
  have slt2 : List.Sorted entLt (getOrderedEntities l2) :=
    (List.pairwise_and_iff.mpr ⟨s2, hne2⟩).imp
      (fun h => Nat.lt_of_le_of_ne h.1 h.2)
  exact List.eq_of_perm_of_sorted p12 slt1 slt2

/-- Witness for the amended C8 at concrete permuted inputs with distinct
timestamps. -/
theorem getOrderedEntities_sorted_and_deterministic_witness :
    getOrderedEntities [⟨"a", 1⟩, ⟨"b", 2⟩] =
      getOrderedEntities [⟨"b", 2⟩, ⟨"a", 1⟩] :=
  (getOrderedEntities_sorted_and_deterministic
    [⟨"a", 1⟩, ⟨"b", 2⟩] [⟨"b", 2⟩, ⟨"a", 1⟩]).2.2 (by decide) (by decide)

/-- C7: for an existing build, `download` fails with `StepNotFound` when no
generation step exists, with `StepNotComplete` when the generation step is
not in `Success` status, with `BuildResultNotFound` when the zip artifact
is absent from the store, and otherwise returns the stored zip artifact. -/
theorem download_characterization :
    ∀ (db : List Build) (disk : String → Option String) (buildId : String) (b : Build),
      db.find? (fun x => x.id == buildId) = some b →
      (download db disk buildId = .error (.stepNotFound GENERATE_STEP_NAME) ↔
        generateStepOf b = none) ∧
      (∀ st, generateStepOf b = some st →
        (download db disk buildId =
            .error (.stepNotComplete GENERATE_STEP_NAME st.status) ↔
          st.status ≠ .Success)) ∧
      (∀ st, generateStepOf b = some st → st.status = .Success →
        (download db disk buildId = .error (.buildResultNotFound b.id) ↔
          disk (getBuildZipFilePath buildId) = none) ∧
        (∀ z, download db disk buildId = .ok z ↔
          disk (getBuildZipFilePath buildId) = some z)) := by
  intro db disk buildId b hfind
  cases hgen : generateStepOf b with
  | none =>
    have hdl : download db disk buildId = .error (.stepNotFound GENERATE_STEP_NAME) := by
      simp [download, hfind, hgen]
    refine ⟨by simp [hdl], ?_, ?_⟩
    · intro st hst
      exact Option.noConfusion hst
    · intro st hst
      exact Option.noConfusion hst
  | some st0 =>
    by_cases hs : st0.status = .Success
    · have hsb : isSuccess st0.status = true := by simp [hs, isSuccess]
      cases hdisk : disk (getBuildZipFilePath buildId) with
      | none =>
        have hdl : download db disk buildId = .error (.buildResultNotFound b.id) := by
          simp [download, hfind, hgen, hsb, hdisk]
        refine ⟨by simp [hdl], ?_, ?_⟩
        · intro st hst
          injection hst with h
          subst h
          simp [hdl, hs]
        · intro st hst hsucc
          injection hst with h
          subst h
          exact ⟨by simp [hdl], fun z => by simp [hdl]⟩
      | some z0 =>
        have hdl : download db disk buildId = .ok z0 := by
          simp [download, hfind, hgen, hsb, hdisk]
        refine ⟨by simp [hdl], ?_, ?_⟩
        · intro st hst
          injection hst with h
          subst h
          simp [hdl, hs]
        · intro st hst hsucc
          injection hst with h
          subst h
          exact ⟨by simp [hdl], fun z => by simp [hdl]⟩
    · have hsb : isSuccess st0.status = false := by
        cases hstat : st0.status <;> simp_all [isSuccess]
      have hdl : download db disk buildId =
          .error (.stepNotComplete GENERATE_STEP_NAME st0.status) := by
        simp [download, hfind, hgen, hsb]
      refine ⟨by simp [hdl], ?_, ?_⟩
      · intro st hst
        injection hst with h
        subst h
        simp [hdl, hs]
      · intro st hst hsucc
        injection hst with h
        subst h
        exact absurd hsucc hs

/-- A concrete artifact store holding the zip artifact of build `b1`. -/
def c7Disk : String → Option String :=
  fun p => if p == getBuildZipFilePath "b1" then some "zip-bytes" else none

/-- Witness for C7: the success path at a concrete database and store. -/
theorem download_characterization_witness :
    download [c4Build] c7Disk "b1" = .ok "zip-bytes" :=
  (((download_characterization [c4Build] c7Disk "b1" c4Build (by rfl)).2.2
    ⟨GENERATE_STEP_NAME, GENERATE_STEP_MESSAGE, .Success, none⟩ (by rfl) (by rfl)).2
    "zip-bytes").mpr (by rfl)

/-- One observable effect of the orchestration pipeline: a persistence
write, an action-log append, a step transition, or a call to an external
collaborator.  Every constructor records the identity of the build (or, for
`reportSyncMessage`, the application) it acts for. -/
inductive Effect where
  | persistBuild (buildId : String)
  | jobLog (buildId : String) (message : String)
  | beginStep (buildId : String) (stepName : String)
  | logInfo (buildId : String) (stepName : String) (message : String)
  | completeStep (buildId : String) (stepName : String) (status : EnumActionStepStatus)
  | updateImages (buildId : String) (images : List String)
  | updateContainerStatus (buildId : String) (statusQuery : Option String) (updatedAt : Nat)
  | autoDeployToSandbox (buildId : String)
  | getStatus (buildId : String) (statusQuery : Option String)
  | createImageId (buildId : String) (tag : String)
  | containerBuild (buildId : String) (tags : List String) (cacheFrom : List String) (url : String)
  | getEntities (buildId : String)
  | getAppRoles (buildId : String)
  | createDataService (buildId : String)
  | saveArtifacts (buildId : String) (zipPath : String) (tarPath : String)
  | localGitSync (buildId : String)
  | createPullRequest (buildId : String) (userName : String) (repoName : String) (branch : String)
  | reportSyncMessage (appId : String) (message : String)
  | returnBuild (buildId : String)
  deriving DecidableEq

/-- `BuildService.handleContainerBuilderResult(build, step, result)`
(source lines 485-534) as the list of effects it performs: on `Completed`
it logs, marks the step `Success`, persists the returned image references
and, when the deployment gate `canDeploy` allows it, triggers the sandbox
deployment; on `Failed` it logs and marks the step `Failed`; on any other
status it logs and persists the new status query and poll timestamp,
leaving the step untouched. -/
def handleContainerBuilderResult (canDeploy : Bool) (now : Nat) (b : Build)
    (step : ActionStep) (result : BuildResult) : List Effect :=
  match result.status with
  | .Completed =>
    [.logInfo b.id step.name BUILD_DOCKER_IMAGE_STEP_FINISH_LOG,
     .completeStep b.id step.name .Success,
     .updateImages b.id result.images] ++
    (if canDeploy then [.autoDeployToSandbox b.id] else [])
  | .Failed =>
    [.logInfo b.id step.name BUILD_DOCKER_IMAGE_STEP_FAILED_LOG,
     .completeStep b.id step.name .Failed]
  | .Running =>
    [.logInfo b.id step.name BUILD_DOCKER_IMAGE_STEP_RUNNING_LOG,
     .updateContainerStatus b.id result.statusQuery now]

/-- C5: handling a remote-build poll result is the three-way case split of
the claim — image references are persisted exactly on `Completed`, the
sandbox deployment fires exactly on `Completed` with the gate open, the
step reaches `Success` exactly on `Completed` and `Failed` exactly on
`Failed`, a terminal transition happens exactly when the status is not
`Running`, and the status-query handle and poll timestamp are persisted
exactly on `Running`. -/
theorem handleContainerBuilderResult_cases :
    ∀ (canDeploy : Bool) (now : Nat) (b : Build) (step : ActionStep)
      (result : BuildResult),
      (Effect.updateImages b.id result.images ∈
          handleContainerBuilderResult canDeploy now b step result ↔
        result.status = .Completed) ∧
      (Effect.autoDeployToSandbox b.id ∈
          handleContainerBuilderResult canDeploy now b step result ↔
        result.status = .Completed ∧ canDeploy = true) ∧
      (Effect.completeStep b.id step.name .Success ∈
          handleContainerBuilderResult canDeploy now b step result ↔
        result.status = .Completed) ∧
      (Effect.completeStep b.id step.name .Failed ∈
          handleContainerBuilderResult canDeploy now b step result ↔
        result.status = .Failed) ∧
      ((∃ st, Effect.completeStep b.id step.name st ∈
          handleContainerBuilderResult canDeploy now b step result) ↔
        result.status ≠ .Running) ∧
      (Effect.updateContainerStatus b.id result.statusQuery now ∈
          handleContainerBuilderResult canDeploy now b step result ↔
        result.status = .Running) := by
  intro canDeploy now b step result
  obtain ⟨status, images, statusQuery⟩ := result
  cases status <;> cases canDeploy <;>
    simp [handleContainerBuilderResult]

/-- `const [userName] = app.githubRepo.split('/')`. -/
def githubOwnerOf (repo : String) : String :=
  (repo.splitOn "/").getD 0 ""

/-- `const [, repoName] = app.githubRepo.split('/')`. -/
def githubRepoNameOf (repo : String) : String :=
  (repo.splitOn "/").getD 1 ""

/-- `BuildService.saveToGitHub(build, modules)` (source lines 599-674) as
the list of effects it performs.  When the application has GitHub sync
enabled it runs a `PUSH_TO_GITHUB` step (the scoped step execution
`ActionService.run`, modelled from the spec since the action service source
is not provided: begin the step, run the work, let the work set the
terminal status) whose work calls the source publisher and then reports the
sync outcome; otherwise it does nothing.  `publishResult` is the outcome of
the `githubService.createPullRequest` call. -/
def saveToGitHubTrace (b : Build) (publishResult : Except String String) : List Effect :=
  if b.app.githubSyncEnabled then
    [.beginStep b.id PUSH_TO_GITHUB_STEP_NAME,
     .logInfo b.id PUSH_TO_GITHUB_STEP_NAME PUSH_TO_GITHUB_STEP_START_LOG,
     .createPullRequest b.id (githubOwnerOf b.app.githubRepo)
       (githubRepoNameOf b.app.githubRepo) ("amplication-build-" ++ b.id)] ++
    (match publishResult with
     | .ok prUrl =>
       [.reportSyncMessage b.appId "Sync Completed Successfully",
        .logInfo b.id PUSH_TO_GITHUB_STEP_NAME prUrl,
        .logInfo b.id PUSH_TO_GITHUB_STEP_NAME PUSH_TO_GITHUB_STEP_FINISH_LOG,
        .completeStep b.id PUSH_TO_GITHUB_STEP_NAME .Success]
     | .error err =>
       [.logInfo b.id PUSH_TO_GITHUB_STEP_NAME PUSH_TO_GITHUB_STEP_FAILED_LOG,
        .logInfo b.id PUSH_TO_GITHUB_STEP_NAME err,
        .completeStep b.id PUSH_TO_GITHUB_STEP_NAME .Failed,
        .reportSyncMessage b.appId ("Error: " ++ err)])
  else []

/-- `BuildService.generate(build)` (source lines 359-449) as the list of
effects of its success path: inside a `GENERATE_APPLICATION` step it
resolves the ordered entities and roles, invokes the code generator, logs,
optionally mirrors the modules into a local git work tree (the
`AMP_PROJECTS_PATH` branch), saves the zip and tarball artifacts, runs
`saveToGitHub`, and completes the step (the scoped step execution marks the
step `Success` on normal return, per the spec's `ActionService.run`). -/
def generateTrace (b : Build) (ampProjectsPath : Option String)
    (publishResult : Except String String) : List Effect :=
  [.beginStep b.id GENERATE_STEP_NAME,
   .getEntities b.id,
   .getAppRoles b.id,
   .createDataService b.id,
   .logInfo b.id GENERATE_STEP_NAME ACTION_ZIP_LOG] ++
  (match ampProjectsPath with
   | some _ => [.localGitSync b.id]
   | none => []) ++
  [.saveArtifacts b.id (getBuildZipFilePath b.id) (getBuildTarGzFilePath b.id)] ++
  saveToGitHubTrace b publishResult ++
  [.logInfo b.id GENERATE_STEP_NAME ACTION_JOB_DONE_LOG,
   .completeStep b.id GENERATE_STEP_NAME .Success]

/-- `BuildService.buildDockerImage(build, tarballURL)` (source lines
456-483) as the list of effects it performs: inside a `BUILD_DOCKER` step
it logs, derives the two image tags, submits the remote build with cache
reuse against the latest image, and handles the submission result
(`imageIdOf` models `containerBuilderService.createImageId`). -/
def buildDockerImageTrace (b : Build) (imageIdOf : String → String)
    (result : BuildResult) (canDeploy : Bool) (now : Nat) : List Effect :=
  [.beginStep b.id BUILD_DOCKER_IMAGE_STEP_NAME,
   .logInfo b.id BUILD_DOCKER_IMAGE_STEP_NAME BUILD_DOCKER_IMAGE_STEP_START_LOG,
   .createImageId b.id (b.appId ++ ":latest"),
   .containerBuild b.id [b.appId ++ ":" ++ b.id, b.appId ++ ":latest"]
     [imageIdOf (b.appId ++ ":latest")] (getBuildTarGzFilePath b.id)] ++
  handleContainerBuilderResult canDeploy now b
    ⟨BUILD_DOCKER_IMAGE_STEP_NAME, BUILD_DOCKER_IMAGE_STEP_MESSAGE, .Running, none⟩
    result

/-- `BuildService.create(args, skipPublish)` (source lines 165-214) as the
list of effects of a run in which the generator succeeds: it persists the
build together with its action and initial step, logs the job start,
awaits `generate`, awaits `buildDockerImage` unless `skipPublish` is set,
logs the job end, and only then resolves with the build
(`Effect.returnBuild`). -/
def createTrace (b : Build) (skipPublish : Bool) (ampProjectsPath : Option String)
    (publishResult : Except String String) (imageIdOf : String → String)
    (dockerResult : BuildResult) (canDeploy : Bool) (now : Nat) : List Effect :=
  [.persistBuild b.id, .jobLog b.id JOB_STARTED_LOG] ++
  generateTrace b ampProjectsPath publishResult ++
  (if skipPublish then []
   else buildDockerImageTrace b imageIdOf dockerResult canDeploy now) ++
  [.jobLog b.id JOB_DONE_LOG, .returnBuild b.id]

/-- Recognizes the source-publisher call. -/
def isCreatePullRequest : Effect → Bool
  | .createPullRequest _ _ _ _ => true
  | _ => false

/-- Recognizes the remote image-build submission. -/
def isContainerBuild : Effect → Bool
  | .containerBuild _ _ _ _ => true
  | _ => false

/-- Recognizes the successful completion of the generation step. -/
def isGenerateSuccessComplete : Effect → Bool
  | .completeStep _ n .Success => n == GENERATE_STEP_NAME
  | _ => false

/-- Recognizes the resolution of the `create` call. -/
def isReturnBuild : Effect → Bool
  | .returnBuild _ => true
  | _ => false

/-- An event satisfying `p` occurs in the trace strictly before any event
satisfying `q` does. -/
def occursBeforeB (t : List Effect) (p q : Effect → Bool) : Bool :=
  t.any p && t.any q && decide (t.findIdx p < t.findIdx q)

theorem findIdx_append_of_any {α : Type} (p : α → Bool) (l1 l2 : List α)
    (h : l1.any p = true) : (l1 ++ l2).findIdx p = l1.findIdx p := by
  induction l1 with
  | nil => simp at h
  | cons x xs ih =>
    cases hx : p x with
    | true => simp [List.findIdx_cons, hx]
    | false =>
      rw [List.any_cons, hx, Bool.false_or] at h
      simp [List.findIdx_cons, hx, ih h]

theorem findIdx_lt_length_of_any {α : Type} (p : α → Bool) (l : List α)
    (h : l.any p = true) : l.findIdx p < l.length := by
  induction l with
  | nil => simp at h
  | cons x xs ih =>
    cases hx : p x with
    | true => simp [List.findIdx_cons, hx]
    | false =>
      rw [List.any_cons, hx, Bool.false_or] at h
      simp [List.findIdx_cons, hx, Nat.succ_lt_succ (ih h)]

theorem findIdx_append_of_any_false {α : Type} (q : α → Bool) (l1 l2 : List α)
    (h : l1.any q = false) : (l1 ++ l2).findIdx q = l1.length + l2.findIdx q := by
  induction l1 with
  | nil => simp
  | cons x xs ih =>
    cases hx : q x with
    | true =>
      rw [List.any_cons, hx, Bool.true_or] at h
      exact Bool.noConfusion h
    | false =>
      rw [List.any_cons, hx, Bool.false_or] at h
      simp [List.findIdx_cons, hx, ih h, Nat.succ_add]

theorem occursBeforeB_append (p q : Effect → Bool) (l1 l2 : List Effect)
    (hp : l1.any p = true) (hq1 : l1.any q = false) (hq2 : l2.any q = true) :
    occursBeforeB (l1 ++ l2) p q = true := by
  have h1 : (l1 ++ l2).any p = true := by simp [List.any_append, hp]
  have h2 : (l1 ++ l2).any q = true := by simp [List.any_append, hq2]
  have e1 : (l1 ++ l2).findIdx p = l1.findIdx p := findIdx_append_of_any p l1 l2 hp
  have e2 : (l1 ++ l2).findIdx q = l1.length + l2.findIdx q :=
    findIdx_append_of_any_false q l1 l2 hq1
  have hlt : l1.findIdx p < l1.length := findIdx_lt_length_of_any p l1 hp
  simp only [occursBeforeB, h1, h2, e1, e2, Bool.true_and, decide_eq_true_eq]
  omega

theorem any_false_of_occursBeforeB {t : List Effect} {p q : Effect → Bool}
    (h : t.any p = false) : occursBeforeB t p q = false := by
  simp [occursBeforeB, h]

theorem any_isCreatePullRequest_handle (canDeploy : Bool) (now : Nat) (b : Build)
    (step : ActionStep) (result : BuildResult) :
    (handleContainerBuilderResult canDeploy now b step result).any
      isCreatePullRequest = false := by
  obtain ⟨status, images, statusQuery⟩ := result
  cases status <;> cases canDeploy <;>
    simp [handleContainerBuilderResult, isCreatePullRequest]

theorem any_isCreatePullRequest_generate (b : Build) (amp : Option String)
    (publishResult : Except String String) :
    (generateTrace b amp publishResult).any isCreatePullRequest =
      b.app.githubSyncEnabled := by
  cases amp <;> cases publishResult <;> cases hs : b.app.githubSyncEnabled <;>
    simp [generateTrace, saveToGitHubTrace, hs, isCreatePullRequest]

theorem any_isContainerBuild_generate (b : Build) (amp : Option String)
    (publishResult : Except String String) :
    (generateTrace b amp publishResult).any isContainerBuild = false := by
  cases amp <;> cases publishResult <;> cases hs : b.app.githubSyncEnabled <;>
    simp [generateTrace, saveToGitHubTrace, hs, isContainerBuild]

theorem any_isContainerBuild_docker (b : Build) (imageIdOf : String → String)
    (result : BuildResult) (canDeploy : Bool) (now : Nat) :
    (buildDockerImageTrace b imageIdOf result canDeploy now).any
      isContainerBuild = true := by
  simp [buildDockerImageTrace, isContainerBuild]

/-- C1 amended: the source publisher is invoked inside the generation
stage, exactly when the application has GitHub sync enabled, and strictly
before the remote image build is even submitted; the image-build completion
handler never invokes the publisher, so the publisher call is independent
of the image build's outcome. -/
theorem publish_runs_in_generation_stage :
    ∀ (b : Build) (amp : Option String) (publishResult : Except String String)
      (imageIdOf : String → String) (dockerResult : BuildResult)
      (canDeploy : Bool) (now : Nat) (step : ActionStep) (result : BuildResult),
      (handleContainerBuilderResult canDeploy now b step result).any
        isCreatePullRequest = false ∧
      (generateTrace b amp publishResult).any isCreatePullRequest =
        b.app.githubSyncEnabled ∧
      occursBeforeB
        (createTrace b false amp publishResult imageIdOf dockerResult canDeploy now)
        isCreatePullRequest isContainerBuild = b.app.githubSyncEnabled := by
  intro b amp publishResult imageIdOf dockerResult canDeploy now step result
  refine ⟨any_isCreatePullRequest_handle canDeploy now b step result,
    any_isCreatePullRequest_generate b amp publishResult, ?_⟩
  cases hs : b.app.githubSyncEnabled with
  | false =>
    have hall : (createTrace b false amp publishResult imageIdOf dockerResult
        canDeploy now).any isCreatePullRequest = false := by
      simp [createTrace, buildDockerImageTrace, List.any_append,
        any_isCreatePullRequest_generate, any_isCreatePullRequest_handle, hs,
        isCreatePullRequest]
    exact any_false_of_occursBeforeB hall
  | true =>
    have htr : createTrace b false amp publishResult imageIdOf dockerResult
        canDeploy now =
        ([.persistBuild b.id, .jobLog b.id JOB_STARTED_LOG] ++
          generateTrace b amp publishResult) ++
        (buildDockerImageTrace b imageIdOf dockerResult canDeploy now ++
          [.jobLog b.id JOB_DONE_LOG, .returnBuild b.id]) := by
      simp [createTrace]
    rw [htr]
    apply occursBeforeB_append
    · simp [List.any_append, any_isCreatePullRequest_generate, hs,
        isCreatePullRequest]
    · simp [List.any_append, any_isContainerBuild_generate, isContainerBuild]
    · simp [List.any_append, any_isContainerBuild_docker]

/-- A concrete application with GitHub sync enabled. -/
def cexApp : AppModel :=
  { name := "app", description := "", githubSyncEnabled := true,
    githubRepo := "owner/repo", githubBranch := "main", githubToken := "tok" }

/-- A concrete build of that application. -/
def cexBuild : Build :=
  { id := "b1", appId := "a1", commitMessage := "msg", version := "v1",
    createdAt := 0, images := [], containerStatusQuery := none,
    containerStatusUpdatedAt := 0, action := some [], app := cexApp }

/-- A failed remote image build result. -/
def cexFailedResult : BuildResult :=
  { status := .Failed, images := [], statusQuery := none }

/-- C1 counterexample: at a concrete input whose remote image build fails,
the source publisher is still called — and it is called before the image
build is even submitted, not after a successful image build. -/
theorem publish_despite_failed_image_build_cex :
    (createTrace cexBuild false none (.ok "pr-url") (fun t => t) cexFailedResult
        false 0).any isCreatePullRequest = true ∧
    Effect.completeStep "b1" BUILD_DOCKER_IMAGE_STEP_NAME .Failed ∈
      createTrace cexBuild false none (.ok "pr-url") (fun t => t) cexFailedResult
        false 0 ∧
    occursBeforeB
      (createTrace cexBuild false none (.ok "pr-url") (fun t => t) cexFailedResult
        false 0)
      isCreatePullRequest isContainerBuild = true := by
  refine ⟨by decide, by decide, by decide⟩

/-- C2 counterexample: at a concrete input the generation step completes
(with `Success`) strictly before `create` resolves — generation is awaited
inside `create`, not run asynchronously after it returns. -/
theorem create_synchronous_generation_cex :
    occursBeforeB
      (createTrace cexBuild true none (.ok "pr-url") (fun t => t) cexFailedResult
        false 0)
      isGenerateSuccessComplete isReturnBuild = true := by
  decide

/-- C2 amended: `create` persists the build with its action and initial
step and then runs the generation stage (and, unless `skipPublish` is set,
the image-build submission) to completion before resolving: the trace of
every run ends with the build being returned, and the generation step's
successful completion lies strictly before that point. -/
theorem create_completes_generation_before_return :
    ∀ (b : Build) (skipPublish : Bool) (amp : Option String)
      (publishResult : Except String String) (imageIdOf : String → String)
      (dockerResult : BuildResult) (canDeploy : Bool) (now : Nat),
      ∃ pre,
        createTrace b skipPublish amp publishResult imageIdOf dockerResult
          canDeploy now = pre ++ [.returnBuild b.id] ∧
        Effect.completeStep b.id GENERATE_STEP_NAME .Success ∈ pre := by
  intro b skipPublish amp publishResult imageIdOf dockerResult canDeploy now
  refine ⟨[.persistBuild b.id, .jobLog b.id JOB_STARTED_LOG] ++
      generateTrace b amp publishResult ++
      (if skipPublish then []
       else buildDockerImageTrace b imageIdOf dockerResult canDeploy now) ++
      [.jobLog b.id JOB_DONE_LOG], ?_, ?_⟩
  · simp [createTrace]
  · simp [generateTrace]

/-- The build (or application) identity an effect acts for. -/
def eventBuildId : Effect → String
  | .persistBuild i => i
  | .jobLog i _ => i
  | .beginStep i _ => i
  | .logInfo i _ _ => i
  | .completeStep i _ _ => i
  | .updateImages i _ => i
  | .updateContainerStatus i _ _ => i
  | .autoDeployToSandbox i => i
  | .getStatus i _ => i
  | .createImageId i _ => i
  | .containerBuild i _ _ _ => i
  | .getEntities i => i
  | .getAppRoles i => i
  | .createDataService i => i
  | .saveArtifacts i _ _ => i
  | .localGitSync i => i
  | .createPullRequest i _ _ _ => i
  | .reportSyncMessage a _ => a
  | .returnBuild i => i

/-- The ordering of the reconciliation query (`orderBy createdAt asc`). -/
def buildLe (a b : Build) : Prop :=
  a.createdAt ≤ b.createdAt

instance : DecidableRel buildLe := fun a b => Nat.decLe a.createdAt b.createdAt

instance : IsTotal Build buildLe := ⟨fun a b => Nat.le_total a.createdAt b.createdAt⟩

instance : IsTrans Build buildLe := ⟨fun _ _ _ hab hbc => Nat.le_trans hab hbc⟩

/-- `step.status === EnumActionStepStatus.Running` as a Boolean test. -/
def isRunningStatus : EnumActionStepStatus → Bool
  | .Running => true
  | _ => false

/-- The step condition of the reconciliation query: some step is `Running`
and named `BUILD_DOCKER`. -/
def hasRunningDockerStep (b : Build) : Bool :=
  (stepsOf b).any (fun s => isRunningStatus s.status && (s.name == BUILD_DOCKER_IMAGE_STEP_NAME))

/-- The row filter of the reconciliation query (source lines 236-253):
`containerStatusUpdatedAt < now - 10s` and a running docker step exists. -/
def buildSelectFilter (now : Nat) (b : Build) : Bool :=
  decide (b.containerStatusUpdatedAt < now - CONTAINER_STATUS_UPDATE_INTERVAL_SEC) &&
    hasRunningDockerStep b

/-- The builds selected by `updateRunningBuildsStatus`, ordered ascending
by creation time (`orderBy: createdAt asc`). -/
def selectedBuilds (db : List Build) (now : Nat) : List Build :=
  List.insertionSort buildLe (db.filter (buildSelectFilter now))

/-- `build.action.steps.find(step => step.name === BUILD_DOCKER_IMAGE_STEP_NAME)`
(source lines 266-268). -/
def dockerStepOf (b : Build) : Option ActionStep :=
  (stepsOf b).find? (fun s => s.name == BUILD_DOCKER_IMAGE_STEP_NAME)

/-- The effects of polling one selected build (the loop body at source
lines 265-285): query the container-builder status and hand the result to
`handleContainerBuilderResult`; if either throws, log the error into the
docker step and complete the step as `Failed`.  `poll` models
`containerBuilderService.getStatus`, returning either a result or a
transport error.  The `none` branch is unreachable for builds returned by
the reconciliation query, which requires a step with this name. -/
def pollBuildTrace (canDeploy : Bool) (now : Nat)
    (poll : Option String → Except String BuildResult) (b : Build) : List Effect :=
  match dockerStepOf b with
  | none => []
  | some step =>
    .getStatus b.id b.containerStatusQuery ::
    (match poll b.containerStatusQuery with
     | .ok result => handleContainerBuilderResult canDeploy now b step result
     | .error err =>
       [.logInfo b.id step.name err,
        .completeStep b.id step.name .Failed])

/-- The strictly sequential effect trace of one application's group
(`for (const build of groupBuilds) { ... await ... }`): the per-build
traces concatenated in the group's order. -/
def groupTrace (canDeploy : Bool) (now : Nat)
    (poll : Option String → Except String BuildResult) (builds : List Build) :
    List Effect :=
  (builds.map (pollBuildTrace canDeploy now poll)).flatten

/-- First-occurrence deduplication with an accumulator of already seen
keys (structurally recursive so that concrete instances compute). -/
def firstDedupAux : List String → List String → List String
  | _, [] => []
  | seen, x :: xs =>
    if x ∈ seen then firstDedupAux seen xs
    else x :: firstDedupAux (x :: seen) xs

/-- The key order of `Object.entries(groupBy(builds, build => build.appId))`:
each application identity once, in order of first occurrence. -/
def firstDedup (l : List String) : List String :=
  firstDedupAux [] l

/-- `groupBy(builds, build => build.appId)` (source line 260) as an ordered
association list. -/
def appGroups (builds : List Build) : List (String × List Build) :=
  (firstDedup (builds.map (fun b => b.appId))).map
    (fun a => (a, builds.filter (fun b => b.appId == a)))

/-- `BuildService.updateRunningBuildsStatus()` (source lines 229-288): the
sequential per-application traces that `Promise.all` starts concurrently.
An execution of the sweep is any interleaving of these traces. -/
def updateRunningBuildsStatusTraces (db : List Build) (now : Nat) (canDeploy : Bool)
    (poll : Option String → Except String BuildResult) : List (List Effect) :=
  (appGroups (selectedBuilds db now)).map
    (fun g => groupTrace canDeploy now poll g.2)

/-- `Interleaving ls t` holds when `t` is an order-preserving merge of the
component sequences `ls`: at every step one component contributes its next
element.  This is the execution model of concurrently running sequential
loops. -/
inductive Interleaving {α : Type} : List (List α) → List α → Prop where
  | nil (ls : List (List α)) (h : ∀ l ∈ ls, l = []) : Interleaving ls []
  | cons (i : Nat) (x : α) (rest : List α) (ls : List (List α)) (t : List α)
      (hget : ls[i]? = some (x :: rest))
      (htail : Interleaving (ls.set i rest) t) : Interleaving ls (x :: t)

theorem getat_map {α β : Type} (f : α → β) (l : List α) (i : Nat) :
    (l.map f)[i]? = (l[i]?).map f := by
  induction l generalizing i with
  | nil => simp
  | cons x xs ih =>
    cases i with
    | zero => simp
    | succ j => simp [ih j]

theorem lt_length_of_getat {α : Type} {l : List α} {i : Nat} {a : α}
    (h : l[i]? = some a) : i < l.length := by
  induction l generalizing i with
  | nil => simp at h
  | cons x xs ih =>
    cases i with
    | zero => simp
    | succ j =>
      simp only [List.getElem?_cons_succ] at h
      exact Nat.succ_lt_succ (ih h)

theorem mem_of_getat {α : Type} {l : List α} {i : Nat} {a : α}
    (h : l[i]? = some a) : a ∈ l := by
  induction l generalizing i with
  | nil => simp at h
  | cons x xs ih =>
    cases i with
    | zero =>
      simp only [List.getElem?_cons_zero, Option.some.injEq] at h
      subst h
      exact List.mem_cons_self x xs
    | succ j =>
      simp only [List.getElem?_cons_succ] at h
      exact List.mem_cons_of_mem x (ih h)

theorem getat_of_mem {α : Type} {l : List α} {a : α} (h : a ∈ l) :
    ∃ i : Nat, l[i]? = some a := by
  induction l with
  | nil => simp at h
  | cons x xs ih =>
    rcases List.mem_cons.mp h with rfl | hmem
    · exact ⟨0, by simp⟩
    · obtain ⟨i, hi⟩ := ih hmem
      exact ⟨i + 1, by simpa using hi⟩

theorem setat_self {α : Type} (l : List α) (i : Nat) (a : α)
    (h : l[i]? = some a) : l.set i a = l := by
  induction l generalizing i with
  | nil => simp
  | cons x xs ih =>
    cases i with
    | zero =>
      simp only [List.getElem?_cons_zero, Option.some.injEq] at h
      subst h
      rfl
    | succ j =>
      simp only [List.getElem?_cons_succ] at h
      simp [List.set_cons_succ, ih j h]

theorem map_setat {α β : Type} (f : α → β) (l : List α) (i : Nat) (a : α) :
    (l.set i a).map f = (l.map f).set i (f a) := by
  induction l generalizing i with
  | nil => simp
  | cons x xs ih =>
    cases i with
    | zero => simp
    | succ j => simp [ih j]

theorem getat_set_ne {α : Type} (l : List α) (i j : Nat) (a : α) (h : i ≠ j) :
    (l.set i a)[j]? = l[j]? := by
  induction l generalizing i j with
  | nil => simp
  | cons x xs ih =>
    cases i with
    | zero =>
      cases j with
      | zero => exact absurd rfl h
      | succ k => simp
    | succ i2 =>
      cases j with
      | zero => simp
      | succ k =>
        have : i2 ≠ k := fun hh => h (by rw [hh])
        simpa using ih i2 k this

theorem getat_set_self {α : Type} (l : List α) (i : Nat) (a : α)
    (h : i < l.length) : (l.set i a)[i]? = some a := by
  induction l generalizing i with
  | nil => simp at h
  | cons x xs ih =>
    cases i with
    | zero => simp
    | succ j =>
      have : j < xs.length := Nat.lt_of_succ_lt_succ h
      simpa using ih j this

theorem getat_append_lt {α : Type} (l1 l2 : List α) (i : Nat)
    (h : i < l1.length) : (l1 ++ l2)[i]? = l1[i]? := by
  induction l1 generalizing i with
  | nil => simp at h
  | cons x xs ih =>
    cases i with
    | zero => simp
    | succ j =>
      have : j < xs.length := Nat.lt_of_succ_lt_succ h
      simpa using ih j this

theorem getat_append_ge {α : Type} (l1 l2 : List α) (i : Nat)
    (h : l1.length ≤ i) : (l1 ++ l2)[i]? = l2[i - l1.length]? := by
  induction l1 generalizing i with
  | nil => simp
  | cons x xs ih =>
    cases i with
    | zero => simp at h
    | succ j =>
      have : xs.length ≤ j := Nat.le_of_succ_le_succ h
      simpa [Nat.succ_sub_succ] using ih j this

theorem getat_append_len {α : Type} (l1 : List α) (a : α) (l2 : List α) :
    (l1 ++ a :: l2)[l1.length]? = some a := by
  induction l1 with
  | nil => simp
  | cons x xs ih => simpa using ih

theorem setat_append_len {α : Type} (l1 : List α) (a b : α) (l2 : List α) :
    (l1 ++ a :: l2).set l1.length b = l1 ++ b :: l2 := by
  induction l1 with
  | nil => rfl
  | cons x xs ih => simp [ih]

theorem interleaving_filter {α : Type} (p : α → Bool) {ls : List (List α)}
    {t : List α} (h : Interleaving ls t) :
    Interleaving (ls.map (List.filter p)) (t.filter p) := by
  induction h with
  | nil ls h =>
    refine .nil _ ?_
    intro l hl
    obtain ⟨l0, hl0, rfl⟩ := List.mem_map.mp hl
    rw [h l0 hl0]
    rfl
  | cons i x rest ls t hget htail ih =>
    by_cases hp : p x = true
    · rw [List.filter_cons_of_pos hp]
      refine .cons i x (rest.filter p) _ _ ?_ ?_
      · rw [getat_map, hget]
        simp [List.filter_cons_of_pos hp]
      · rw [← map_setat]
        exact ih
    · rw [List.filter_cons_of_neg (by simpa using hp)]
      have h1 : (ls.map (List.filter p))[i]? = some (rest.filter p) := by
        rw [getat_map, hget]
        simp [List.filter_cons_of_neg (by simpa using hp)]
      have h2 : ls.map (List.filter p) = (ls.set i rest).map (List.filter p) := by
        rw [map_setat]
        exact (setat_self _ _ _ h1).symm
      rw [h2]
      exact ih

theorem interleaving_component_sublist {α : Type} {ls : List (List α)}
    {t : List α} (h : Interleaving ls t) :
    ∀ (i : Nat) (l : List α), ls[i]? = some l → l.Sublist t := by
  induction h with
  | nil ls h =>
    intro i l hget
    rw [h l (mem_of_getat hget)]
  | cons j x rest ls t hget htail ih =>
    intro i l hgetl
    by_cases hij : i = j
    · subst hij
      rw [hget] at hgetl
      injection hgetl with hh
      subst hh
      have hrest : (ls.set i rest)[i]? = some rest :=
        getat_set_self ls i rest (lt_length_of_getat hget)
      exact (ih i rest hrest).cons₂ x
    · have hne : j ≠ i := fun hh => hij hh.symm
      have : (ls.set j rest)[i]? = some l := by
        rw [getat_set_ne ls j i rest hne]
        exact hgetl
      exact (ih i l this).cons x

theorem interleaving_mem_sublist {α : Type} {ls : List (List α)} {t : List α}
    (h : Interleaving ls t) {l : List α} (hl : l ∈ ls) : l.Sublist t := by
  obtain ⟨i, hi⟩ := getat_of_mem hl
  exact interleaving_component_sublist h i l hi

theorem interleaving_eq_nil {α : Type} {ls : List (List α)} {t : List α}
    (h : Interleaving ls t) (hall : ∀ l ∈ ls, l = []) : t = [] := by
  cases h with
  | nil => rfl
  | cons i x rest ls t hget htail =>
    exact absurd (hall _ (mem_of_getat hget)) (List.cons_ne_nil x rest)

theorem interleaving_eq_single {α : Type} {ls : List (List α)} {t : List α}
    (h : Interleaving ls t) :
    ∀ (l1 : List (List α)) (g : List α) (l2 : List (List α)),
      ls = l1 ++ g :: l2 → (∀ l ∈ l1, l = []) → (∀ l ∈ l2, l = []) →
      t = g := by
  induction h with
  | nil ls hall =>
    intro l1 g l2 hls h1 h2
    subst hls
    exact (hall g (by simp)).symm
  | cons i x rest ls t hget htail ih =>
    intro l1 g l2 hls h1 h2
    subst hls
    rcases Nat.lt_trichotomy i l1.length with hlt | heq | hgt
    · rw [getat_append_lt l1 (g :: l2) i hlt] at hget
      exact absurd (h1 _ (mem_of_getat hget)) (List.cons_ne_nil x rest)
    · subst heq
      have hg : (l1 ++ g :: l2)[l1.length]? = some g := getat_append_len l1 g l2
      have hgx : x :: rest = g := by
        have := hget.symm.trans hg
        injection this
      have hset : (l1 ++ g :: l2).set l1.length rest = l1 ++ rest :: l2 :=
        setat_append_len l1 g rest l2
      have ht : t = rest := ih l1 rest l2 hset h1 h2
      rw [ht]
      exact hgx
    · have hge : l1.length ≤ i := Nat.le_of_lt hgt
      rw [getat_append_ge l1 (g :: l2) i hge] at hget
      have hk : i - l1.length = (i - l1.length - 1) + 1 := by omega
      rw [hk, List.getElem?_cons_succ] at hget
      exact absurd (h2 _ (mem_of_getat hget)) (List.cons_ne_nil x rest)

theorem interleaving_single {α : Type} (l : List α) : Interleaving [l] l := by
  induction l with
  | nil => exact .nil _ (by simp)
  | cons x xs ih => exact .cons 0 x xs _ _ (by simp) ih

theorem mem_firstDedupAux (seen l : List String) (a : String) :
    a ∈ firstDedupAux seen l ↔ a ∈ l ∧ a ∉ seen := by
  induction l generalizing seen with
  | nil => simp [firstDedupAux]
  | cons x xs ih =>
    by_cases hx : x ∈ seen
    · rw [firstDedupAux, if_pos hx, ih seen]
      constructor
      · rintro ⟨hm, hns⟩
        exact ⟨List.mem_cons_of_mem x hm, hns⟩
      · rintro ⟨hm, hns⟩
        rcases List.mem_cons.mp hm with rfl | hm2
        · exact absurd hx hns
        · exact ⟨hm2, hns⟩
    · rw [firstDedupAux, if_neg hx]
      constructor
      · intro hm
        rcases List.mem_cons.mp hm with rfl | hm2
        · exact ⟨List.mem_cons_self a xs, hx⟩
        · obtain ⟨h1, h2⟩ := (ih (x :: seen)).mp hm2
          refine ⟨List.mem_cons_of_mem x h1, fun hs => h2 (List.mem_cons_of_mem x hs)⟩
      · rintro ⟨hm, hns⟩
        rcases List.mem_cons.mp hm with rfl | hm2
        · exact List.mem_cons_self a _
        · by_cases hax : a = x
          · subst hax
            exact List.mem_cons_self a _
          · refine List.mem_cons_of_mem x ((ih (x :: seen)).mpr ⟨hm2, ?_⟩)
            intro hs
            rcases List.mem_cons.mp hs with h | h
            · exact hax h
            · exact hns h

theorem mem_firstDedup (l : List String) (a : String) :
    a ∈ firstDedup l ↔ a ∈ l := by
  rw [firstDedup, mem_firstDedupAux]
  simp

theorem nodup_firstDedupAux (seen l : List String) :
    (firstDedupAux seen l).Nodup := by
  induction l generalizing seen with
  | nil => exact List.nodup_nil
  | cons x xs ih =>
    by_cases hx : x ∈ seen
    · rw [firstDedupAux, if_pos hx]
      exact ih seen
    · rw [firstDedupAux, if_neg hx]
      refine List.nodup_cons.mpr ⟨?_, ih (x :: seen)⟩
      intro hm
      exact ((mem_firstDedupAux (x :: seen) xs x).mp hm).2 (List.mem_cons_self x seen)

theorem nodup_firstDedup (l : List String) : (firstDedup l).Nodup :=
  nodup_firstDedupAux [] l

theorem handle_events_buildId (canDeploy : Bool) (now : Nat) (b : Build)
    (step : ActionStep) (result : BuildResult) :
    ∀ e ∈ handleContainerBuilderResult canDeploy now b step result,
      eventBuildId e = b.id := by
  have hall : (handleContainerBuilderResult canDeploy now b step result).all
      (fun e => eventBuildId e == b.id) = true := by
    obtain ⟨status, images, statusQuery⟩ := result
    cases status <;> cases canDeploy <;>
      simp [handleContainerBuilderResult, eventBuildId]
  intro e he
  have := List.all_eq_true.mp hall e he
  simpa using this

theorem pollTrace_events_buildId (canDeploy : Bool) (now : Nat)
    (poll : Option String → Except String BuildResult) (b : Build) :
    ∀ e ∈ pollBuildTrace canDeploy now poll b, eventBuildId e = b.id := by
  intro e he
  cases hds : dockerStepOf b with
  | none => simp [pollBuildTrace, hds] at he
  | some step =>
    cases hpoll : poll b.containerStatusQuery with
    | ok result =>
      simp [pollBuildTrace, hds, hpoll] at he
      rcases he with rfl | he2
      · rfl
      · exact handle_events_buildId canDeploy now b step result e he2
    | error err =>
      simp [pollBuildTrace, hds, hpoll] at he
      rcases he with rfl | rfl | rfl <;> rfl

theorem groupTrace_event_ids (canDeploy : Bool) (now : Nat)
    (poll : Option String → Except String BuildResult) (builds : List Build) :
    ∀ e ∈ groupTrace canDeploy now poll builds,
      ∃ b ∈ builds, eventBuildId e = b.id := by
  intro e he
  rw [groupTrace] at he
  obtain ⟨l, hl, hel⟩ := List.mem_flatten.mp he
  obtain ⟨b, hb, rfl⟩ := List.mem_map.mp hl
  exact ⟨b, hb, pollTrace_events_buildId canDeploy now poll b e hel⟩

theorem mem_selected_iff (db : List Build) (now : Nat) (b : Build) :
    b ∈ selectedBuilds db now ↔ b ∈ db.filter (buildSelectFilter now) :=
  (List.perm_insertionSort buildLe (db.filter (buildSelectFilter now))).mem_iff

theorem dockerStepOf_selected {db : List Build} {now : Nat} {b : Build}
    (hb : b ∈ selectedBuilds db now) :
    ∃ step, dockerStepOf b = some step ∧
      step.name = BUILD_DOCKER_IMAGE_STEP_NAME := by
  have hmem := (mem_selected_iff db now b).mp hb
  have hf : buildSelectFilter now b = true := (List.mem_filter.mp hmem).2
  rw [buildSelectFilter] at hf
  have hdock : hasRunningDockerStep b = true := by
    cases hh : hasRunningDockerStep b
    · rw [hh, Bool.and_false] at hf
      exact Bool.noConfusion hf
    · rfl
  rw [hasRunningDockerStep] at hdock
  obtain ⟨s, hs, hps⟩ := List.any_eq_true.mp hdock
  have hname : (s.name == BUILD_DOCKER_IMAGE_STEP_NAME) = true := by
    cases hh : (s.name == BUILD_DOCKER_IMAGE_STEP_NAME)
    · rw [hh, Bool.and_false] at hps
      exact Bool.noConfusion hps
    · rfl
  have hsome : (dockerStepOf b).isSome = true := by
    rw [dockerStepOf]
    exact List.find?_isSome.mpr ⟨s, hs, hname⟩
  obtain ⟨step, hstep⟩ := Option.isSome_iff_exists.mp hsome
  refine ⟨step, hstep, ?_⟩
  have := List.find?_some hstep
  simpa using this

/-- A sweep trace: any interleaving of the per-application group traces. -/
def SweepTrace (db : List Build) (now : Nat) (canDeploy : Bool)
    (poll : Option String → Except String BuildResult) (t : List Effect) : Prop :=
  Interleaving (updateRunningBuildsStatusTraces db now canDeploy poll) t

theorem pollTrace_mem_sweep {db : List Build} {now : Nat} {canDeploy : Bool}
    {poll : Option String → Except String BuildResult} {t : List Effect}
    (hil : SweepTrace db now canDeploy poll t) {b : Build}
    (hb : b ∈ selectedBuilds db now) :
    ∀ e ∈ pollBuildTrace canDeploy now poll b, e ∈ t := by
  intro e he
  have hkey : b.appId ∈ firstDedup ((selectedBuilds db now).map (fun x => x.appId)) :=
    (mem_firstDedup _ _).mpr (List.mem_map.mpr ⟨b, hb, rfl⟩)
  have hcomp :
      groupTrace canDeploy now poll
        ((selectedBuilds db now).filter (fun x => x.appId == b.appId)) ∈
      updateRunningBuildsStatusTraces db now canDeploy poll := by
    rw [updateRunningBuildsStatusTraces, appGroups, List.map_map]
    exact List.mem_map.mpr ⟨b.appId, hkey, rfl⟩
  have hsl := interleaving_mem_sublist hil hcomp
  have hbg : b ∈ (selectedBuilds db now).filter (fun x => x.appId == b.appId) :=
    List.mem_filter.mpr ⟨hb, by simp⟩
  have heg : e ∈ groupTrace canDeploy now poll
      ((selectedBuilds db now).filter (fun x => x.appId == b.appId)) := by
    rw [groupTrace]
    exact List.mem_flatten.mpr
      ⟨pollBuildTrace canDeploy now poll b, List.mem_map.mpr ⟨b, hbg, rfl⟩, he⟩
  exact hsl.subset heg

/-- C6: a transport error while polling one build's remote status is
confined to that build — its docker step is marked `Failed` with the error
logged into it — and every other selected build is still polled during the
same sweep, in every possible execution of the sweep. -/
theorem poll_error_isolated :
    ∀ (db : List Build) (now : Nat) (canDeploy : Bool)
      (poll : Option String → Except String BuildResult) (t : List Effect)
      (b : Build) (err : String),
      SweepTrace db now canDeploy poll t →
      b ∈ selectedBuilds db now →
      poll b.containerStatusQuery = .error err →
      Effect.logInfo b.id BUILD_DOCKER_IMAGE_STEP_NAME err ∈ t ∧
      Effect.completeStep b.id BUILD_DOCKER_IMAGE_STEP_NAME .Failed ∈ t ∧
      ∀ b2 ∈ selectedBuilds db now,
        Effect.getStatus b2.id b2.containerStatusQuery ∈ t := by
  intro db now canDeploy poll t b err hil hb hpoll
  obtain ⟨step, hstep, hname⟩ := dockerStepOf_selected hb
  have htr : pollBuildTrace canDeploy now poll b =
      [.getStatus b.id b.containerStatusQuery,
       .logInfo b.id BUILD_DOCKER_IMAGE_STEP_NAME err,
       .completeStep b.id BUILD_DOCKER_IMAGE_STEP_NAME .Failed] := by
    simp [pollBuildTrace, hstep, hpoll, hname]
  refine ⟨?_, ?_, ?_⟩
  · exact pollTrace_mem_sweep hil hb _ (by rw [htr]; simp)
  · exact pollTrace_mem_sweep hil hb _ (by rw [htr]; simp)
  · intro b2 hb2
    obtain ⟨step2, hstep2, hname2⟩ := dockerStepOf_selected hb2
    refine pollTrace_mem_sweep hil hb2 _ ?_
    cases hpoll2 : poll b2.containerStatusQuery <;>
      simp [pollBuildTrace, hstep2, hpoll2]

theorem selected_ids_nodup {db : List Build} {now : Nat}
    (hnodup : (db.map (fun b => b.id)).Nodup) :
    ((selectedBuilds db now).map (fun b => b.id)).Nodup := by
  have h1 := List.perm_insertionSort buildLe (db.filter (buildSelectFilter now))
  have hsub : List.Sublist ((db.filter (buildSelectFilter now)).map (fun b => b.id))
      (db.map (fun b => b.id)) := (List.filter_sublist db).map (fun b => b.id)
  have h2 : ((db.filter (buildSelectFilter now)).map (fun b => b.id)).Nodup :=
    hnodup.sublist hsub
  exact ((h1.map (fun b => b.id)).nodup_iff).mpr h2

/-- The events of the reconciliation sweep that belong to application `a`:
their build identity is the identity of a selected build of `a`. -/
def appEventFilter (db : List Build) (now : Nat) (a : String) (e : Effect) : Bool :=
  (selectedBuilds db now).any (fun b => (b.appId == a) && (eventBuildId e == b.id))

/-- The selected builds of one application, in the sweep's order. -/
def groupBuildsOf (db : List Build) (now : Nat) (a : String) : List Build :=
  (selectedBuilds db now).filter (fun b => b.appId == a)

theorem group_filter_self (db : List Build) (now : Nat) (canDeploy : Bool)
    (poll : Option String → Except String BuildResult) (a : String) :
    (groupTrace canDeploy now poll (groupBuildsOf db now a)).filter
      (appEventFilter db now a) =
    groupTrace canDeploy now poll (groupBuildsOf db now a) := by
  apply List.filter_eq_self.mpr
  intro e he
  obtain ⟨b0, hb0, hid⟩ := groupTrace_event_ids canDeploy now poll _ e he
  have hb0sel : b0 ∈ selectedBuilds db now := (List.mem_filter.mp hb0).1
  have hb0a : b0.appId = a := by
    have := (List.mem_filter.mp hb0).2
    simpa using this
  rw [appEventFilter]
  exact List.any_eq_true.mpr ⟨b0, hb0sel, by simp [hb0a, hid]⟩

theorem group_filter_other (db : List Build) (now : Nat) (canDeploy : Bool)
    (poll : Option String → Except String BuildResult) (a key : String)
    (hnodup : (db.map (fun b => b.id)).Nodup) (hne : key ≠ a) :
    (groupTrace canDeploy now poll (groupBuildsOf db now key)).filter
      (appEventFilter db now a) = [] := by
  apply List.filter_eq_nil_iff.mpr
  intro e he hP
  obtain ⟨b0, hb0, hid⟩ := groupTrace_event_ids canDeploy now poll _ e he
  have hb0sel : b0 ∈ selectedBuilds db now := (List.mem_filter.mp hb0).1
  have hb0key : b0.appId = key := by
    have := (List.mem_filter.mp hb0).2
    simpa using this
  rw [appEventFilter] at hP
  obtain ⟨b1, hb1, hand⟩ := List.any_eq_true.mp hP
  have hb1a : b1.appId = a := by
    have h1 : (b1.appId == a) = true := by
      cases hh : (b1.appId == a)
      · rw [hh, Bool.false_and] at hand
        exact Bool.noConfusion hand
      · rfl
    simpa using h1
  have hb1e : eventBuildId e = b1.id := by
    have h1 : (eventBuildId e == b1.id) = true := by
      cases hh : (eventBuildId e == b1.id)
      · rw [hh, Bool.and_false] at hand
        exact Bool.noConfusion hand
      · rfl
    simpa using h1
  have hbb : b1 = b0 :=
    List.inj_on_of_nodup_map (selected_ids_nodup hnodup) hb1 hb0sel
      (by rw [← hb1e, hid])
  rw [hbb, hb0key] at hb1a
  exact hne hb1a

/-- A running docker step, as selected by the reconciliation query. -/
def runningDockerStep : ActionStep :=
  ⟨BUILD_DOCKER_IMAGE_STEP_NAME, BUILD_DOCKER_IMAGE_STEP_MESSAGE, .Running, none⟩

/-- A build of application `apA` with an outstanding remote build. -/
def exBuild1 : Build :=
  { id := "x1", appId := "apA", commitMessage := "", version := "",
    createdAt := 1, images := [], containerStatusQuery := some "q1",
    containerStatusUpdatedAt := 0, action := some [runningDockerStep],
    app := plainApp }

/-- A build of application `apB` with an outstanding remote build. -/
def exBuild2 : Build :=
  { id := "x2", appId := "apB", commitMessage := "", version := "",
    createdAt := 2, images := [], containerStatusQuery := some "q2",
    containerStatusUpdatedAt := 0, action := some [runningDockerStep],
    app := plainApp }

/-- A database with one outstanding build in each of two applications. -/
def exDb : List Build := [exBuild1, exBuild2]

/-- A poll that reports the remote build still running. -/
def exPoll : Option String → Except String BuildResult :=
  fun _ => .ok ⟨.Running, [], some "q9"⟩

def exE1a : Effect := .getStatus "x1" (some "q1")
def exE1b : Effect :=
  .logInfo "x1" BUILD_DOCKER_IMAGE_STEP_NAME BUILD_DOCKER_IMAGE_STEP_RUNNING_LOG
def exE1c : Effect := .updateContainerStatus "x1" (some "q9") 20
def exE2a : Effect := .getStatus "x2" (some "q2")
def exE2b : Effect :=
  .logInfo "x2" BUILD_DOCKER_IMAGE_STEP_NAME BUILD_DOCKER_IMAGE_STEP_RUNNING_LOG
def exE2c : Effect := .updateContainerStatus "x2" (some "q9") 20

/-- A sweep execution in which the poll of application `apB` happens while
application `apA` is between its poll and its poll handling: the two
groups run concurrently. -/
def exMixed : List Effect := [exE1a, exE2a, exE1b, exE1c, exE2b, exE2c]

theorem exMixed_sweep : SweepTrace exDb 20 false exPoll exMixed := by
  have h1 : updateRunningBuildsStatusTraces exDb 20 false exPoll =
      [[exE1a, exE1b, exE1c], [exE2a, exE2b, exE2c]] := by decide
  rw [SweepTrace, h1]
  have d7 : Interleaving [([] : List Effect), []] [] := .nil _ (by simp)
  have d6 : Interleaving [[], [exE2c]] [exE2c] :=
    .cons 1 exE2c [] _ _ (by simp) d7
  have d5 : Interleaving [[], [exE2b, exE2c]] [exE2b, exE2c] :=
    .cons 1 exE2b [exE2c] _ _ (by simp) d6
  have d4 : Interleaving [[exE1c], [exE2b, exE2c]] [exE1c, exE2b, exE2c] :=
    .cons 0 exE1c [] _ _ (by simp) d5
  have d3 : Interleaving [[exE1b, exE1c], [exE2b, exE2c]]
      [exE1b, exE1c, exE2b, exE2c] :=
    .cons 0 exE1b [exE1c] _ _ (by simp) d4
  have d2 : Interleaving [[exE1b, exE1c], [exE2a, exE2b, exE2c]]
      [exE2a, exE1b, exE1c, exE2b, exE2c] :=
    .cons 1 exE2a [exE2b, exE2c] _ _ (by simp) d3
  exact .cons 0 exE1a [exE1b, exE1c] _ _ (by simp) d2

/-- C3: in every execution of one reconciliation sweep, the events
belonging to one application form exactly that application's sequential
group trace — the per-build traces concatenated in ascending creation
order, so a later build of the same application is never polled before the
earlier build's poll-and-advance has finished — while the groups of
different applications may interleave freely (witnessed by a concrete
execution in which a second application's poll happens in the middle of
the first application's poll handling). -/
theorem reconciliation_per_app_sequential :
    (∀ (db : List Build) (now : Nat) (canDeploy : Bool)
       (poll : Option String → Except String BuildResult) (t : List Effect)
       (a : String),
       (db.map (fun b => b.id)).Nodup →
       SweepTrace db now canDeploy poll t →
       t.filter (appEventFilter db now a) =
         groupTrace canDeploy now poll (groupBuildsOf db now a) ∧
       List.Sorted buildLe (groupBuildsOf db now a)) ∧
    (∃ t, SweepTrace exDb 20 false exPoll t ∧ t = exMixed) := by
  constructor
  · intro db now canDeploy poll t a hnodup hil
    constructor
    · by_cases ha : a ∈ (selectedBuilds db now).map (fun b => b.appId)
      · obtain ⟨k1, k2, hsplit⟩ :=
          List.append_of_mem ((mem_firstDedup _ _).mpr ha)
        have hnd := nodup_firstDedup ((selectedBuilds db now).map (fun b => b.appId))
        rw [hsplit] at hnd
        obtain ⟨hnd1, hnd2, hdisj⟩ := List.nodup_append.mp hnd
        have hak2 : a ∉ k2 := (List.nodup_cons.mp hnd2).1
        have hak1 : a ∉ k1 := fun hm => hdisj hm (List.mem_cons_self a k2)
        have htraces : updateRunningBuildsStatusTraces db now canDeploy poll =
            (firstDedup ((selectedBuilds db now).map (fun b => b.appId))).map
              (fun key => groupTrace canDeploy now poll (groupBuildsOf db now key)) := by
          rw [updateRunningBuildsStatusTraces, appGroups, List.map_map]
          rfl
        have hfil := interleaving_filter (appEventFilter db now a) hil
        rw [htraces, hsplit, List.map_append, List.map_cons,
          List.map_append, List.map_cons] at hfil
        have heq := interleaving_eq_single hfil
          ((k1.map (fun key => groupTrace canDeploy now poll (groupBuildsOf db now key))).map
            (List.filter (appEventFilter db now a)))
          ((groupTrace canDeploy now poll (groupBuildsOf db now a)).filter
            (appEventFilter db now a))
          ((k2.map (fun key => groupTrace canDeploy now poll (groupBuildsOf db now key))).map
            (List.filter (appEventFilter db now a)))
          rfl
          (by
            intro l hl
            obtain ⟨l0, hl0, rfl⟩ := List.mem_map.mp hl
            obtain ⟨key, hkey, rfl⟩ := List.mem_map.mp hl0
            exact group_filter_other db now canDeploy poll a key hnodup
              (fun he => hak1 (he ▸ hkey)))
          (by
            intro l hl
            obtain ⟨l0, hl0, rfl⟩ := List.mem_map.mp hl
            obtain ⟨key, hkey, rfl⟩ := List.mem_map.mp hl0
            exact group_filter_other db now canDeploy poll a key hnodup
              (fun he => hak2 (he ▸ hkey)))
        exact heq.trans (group_filter_self db now canDeploy poll a)
      · have hgb : groupBuildsOf db now a = [] := by
          rw [groupBuildsOf]
          apply List.filter_eq_nil_iff.mpr
          intro b hb hba
          exact ha (List.mem_map.mpr ⟨b, hb, by simpa using hba⟩)
        have ht : t.filter (appEventFilter db now a) = [] := by
          apply List.filter_eq_nil_iff.mpr
          intro e he hP
          rw [appEventFilter] at hP
          obtain ⟨b1, hb1, hand⟩ := List.any_eq_true.mp hP
          have hb1a : (b1.appId == a) = true := by
            cases hh : (b1.appId == a)
            · rw [hh, Bool.false_and] at hand
              exact Bool.noConfusion hand
            · rfl
          exact ha (List.mem_map.mpr ⟨b1, hb1, by simpa using hb1a⟩)
        rw [ht, hgb]
        rfl
    · exact List.Pairwise.sublist (List.filter_sublist _)
        (List.sorted_insertionSort buildLe _)
  · exact ⟨exMixed, exMixed_sweep, rfl⟩

/-- Witness for C3 at the concrete two-application database and the mixed
execution. -/
theorem reconciliation_per_app_sequential_witness :
    exMixed.filter (appEventFilter exDb 20 "apA") =
      groupTrace false 20 exPoll (groupBuildsOf exDb 20 "apA") :=
  (reconciliation_per_app_sequential.1 exDb 20 false exPoll exMixed "apA"
    (by decide) exMixed_sweep).1

/-- A single outstanding build whose poll will fail with a transport
error. -/
def wBuild : Build :=
  { id := "w1", appId := "wa1", commitMessage := "", version := "",
    createdAt := 0, images := [], containerStatusQuery := some "q1",
    containerStatusUpdatedAt := 0, action := some [runningDockerStep],
    app := plainApp }

/-- A poll that always fails with a transport error. -/
def wPoll : Option String → Except String BuildResult :=
  fun _ => .error "boom"

/-- The (unique) execution of the sweep over `wBuild`. -/
def wT : List Effect :=
  [.getStatus "w1" (some "q1"),
   .logInfo "w1" BUILD_DOCKER_IMAGE_STEP_NAME "boom",
   .completeStep "w1" BUILD_DOCKER_IMAGE_STEP_NAME .Failed]

/-- Witness for C6 at a concrete database and failing poll. -/
theorem poll_error_isolated_witness :
    Effect.logInfo "w1" BUILD_DOCKER_IMAGE_STEP_NAME "boom" ∈ wT ∧
    Effect.completeStep "w1" BUILD_DOCKER_IMAGE_STEP_NAME .Failed ∈ wT ∧
    ∀ b2 ∈ selectedBuilds [wBuild] 20,
      Effect.getStatus b2.id b2.containerStatusQuery ∈ wT := by
  have h1 : updateRunningBuildsStatusTraces [wBuild] 20 false wPoll = [wT] := by
    decide
  have h2 : SweepTrace [wBuild] 20 false wPoll wT := by
    rw [SweepTrace, h1]
    exact interleaving_single wT
  exact poll_error_isolated [wBuild] 20 false wPoll wT wBuild "boom" h2
    (by decide) rfl
